import Mathlib

/-!
Verification of the weekly-report reshaping pipeline of the
`reporting-automation` repository.

Dates are modelled as integers counting days since 1970-01-01 (a Thursday).
`daysFromCivil` converts a proleptic-Gregorian calendar date to such a day
number (the standard civil-from-days algorithm, matching Python's
`datetime.date`).  `pyWeekday` reproduces Python's `date.weekday()`
(Monday = 0 … Sunday = 6).
-/

/-- Day number (days since 1970-01-01) of the civil date `y-m-d`. -/
def daysFromCivil (y m d : Int) : Int :=
  let yAdj := if m ≤ 2 then y - 1 else y
  let era := (if 0 ≤ yAdj then yAdj else yAdj - 399) / 400
  let yoe := yAdj - era * 400
  let mp := if 2 < m then m - 3 else m + 9
  let doy := (153 * mp + 2) / 5 + d - 1
  let doe := yoe * 365 + yoe / 4 - yoe / 100 + doy
  era * 146097 + doe - 719468

/-- Python's `date.weekday()`: Monday is 0 and Sunday is 6.
Day 0 (1970-01-01) was a Thursday, hence the offset 3. -/
def pyWeekday (d : Int) : Int := (d + 3) % 7

/-- Source: `days_since_sunday = (current_date.weekday() + 1) % 7`
(`lib/ga_reporter.py` line 51, `campaign.py` line 73). -/
def days_since_sunday (d : Int) : Int := (pyWeekday d + 1) % 7

/-- Source: `week_start_date = current_date - timedelta(days=days_since_sunday)`
(`lib/ga_reporter.py` line 52, `campaign.py` line 74).  This is the
week-bucketing operation the spec calls `bucket`. -/
def week_start_date (d : Int) : Int := d - days_since_sunday d

/-- Whether year `y` is a Gregorian leap year. -/
def isLeap (y : Int) : Bool := y % 4 = 0 ∧ (y % 100 ≠ 0 ∨ y % 400 = 0)

/-- Number of days in month `m` of year `y`. -/
def daysInMonth (y m : Int) : Int :=
  if m = 2 then (if isLeap y then 29 else 28)
  else if m = 4 ∨ m = 6 ∨ m = 9 ∨ m = 11 then 30
  else 31

/-- Value of a decimal digit character, `none` for a non-digit. -/
def digitVal? (c : Char) : Option Nat :=
  if c.isDigit then some (c.toNat - 48) else none

/-- Decimal number denoted by a list of digit characters (`none` when a
non-digit occurs). -/
def natOfDigits? (cs : List Char) : Option Nat :=
  cs.foldl (fun acc c => do pure (10 * (← acc) + (← digitVal? c))) (some 0)

/-- Source: `datetime.strptime(date_str, "%Y%m%d").date()` — parse an 8-digit
`YYYYMMDD` string to a day number, rejecting malformed strings and
out-of-range month/day values (strptime raises `ValueError` on those). -/
def parseYYYYMMDD (s : String) : Option Int :=
  match s.data with
  | [y1, y2, y3, y4, m1, m2, d1, d2] =>
    match natOfDigits? [y1, y2, y3, y4], natOfDigits? [m1, m2], natOfDigits? [d1, d2] with
    | some y, some m, some d =>
        if 1 ≤ (m : Int) ∧ (m : Int) ≤ 12 ∧ 1 ≤ (d : Int) ∧
            (d : Int) ≤ daysInMonth (y : Int) (m : Int) then
          some (daysFromCivil (y : Int) (m : Int) (d : Int))
        else none
    | _, _, _ => none
  | _ => none

/-- C1: for every calendar date `D`, `week_start_date D` (computed as
`D - ((weekday_index_mon0 + 1) mod 7)` days) falls on a Sunday
(`pyWeekday = 6`) and satisfies `bucket(D) ≤ D < bucket(D) + 7`; moreover the
date string `"20240106"` parses to a Saturday (`pyWeekday = 5`) and its bucket
is 2023-12-31. -/
theorem week_bucketing_sound :
    (∀ d : Int,
      pyWeekday (week_start_date d) = 6 ∧
      week_start_date d ≤ d ∧ d < week_start_date d + 7) ∧
    parseYYYYMMDD "20240106" = some (daysFromCivil 2024 1 6) ∧
    pyWeekday (daysFromCivil 2024 1 6) = 5 ∧
    week_start_date (daysFromCivil 2024 1 6) = daysFromCivil 2023 12 31 := by
  refine ⟨fun d => ?_, by decide, by decide, by decide⟩
  simp only [pyWeekday, week_start_date, days_since_sunday]
  omega

/-!
Embedding of `lib/ga_reporter.py`'s `process_to_weekly_df`.

The GA API response is a list of rows, each carrying dimension values and
metric values as strings.  The Python accumulator `pivoted_data` is a dict of
dicts; dicts preserve insertion order, so it is modelled as an
insertion-ordered association list.
-/

structure DimensionValue where
  value : String
deriving DecidableEq, Repr

structure MetricValue where
  value : String
deriving DecidableEq, Repr

structure ResponseRow where
  dimension_values : List DimensionValue
  metric_values : List MetricValue
deriving DecidableEq, Repr

structure RunReportResponse where
  rows : List ResponseRow
deriving DecidableEq, Repr

/-- Group key of a table row: `key = tuple(key_parts) if len(key_parts) > 1
else key_parts[0]` yields either a bare string or a tuple of strings. -/
inductive GroupKey where
  | str (s : String)
  | tup (parts : List String)
deriving DecidableEq, Repr

/-- Source: `tuple(key_parts) if len(key_parts) > 1 else key_parts[0]`
(`lib/ga_reporter.py` line 45).  `key_parts[0]` on an empty list raises in
Python, modelled by `none`. -/
def mkKey (key_parts : List String) : Option GroupKey :=
  if 1 < key_parts.length then some (.tup key_parts)
  else key_parts.head?.map .str

/-- Python's `int()` on a metric-value string (optional minus sign and
decimal digits; malformed strings raise, modelled by `none`). -/
def intOfString? (s : String) : Option Int :=
  match s.data with
  | [] => none
  | '-' :: rest =>
      if rest.isEmpty then none
      else (natOfDigits? rest).map (fun n => -(n : Int))
  | cs => (natOfDigits? cs).map (fun n => (n : Int))

/-- Loop body of `process_to_weekly_df` (lines 37-54), success projection:
build the key parts, apply the exclusion filter, parse the date and the
metric value (Python's `int`), and bucket the date into its week.  Here
`none` only says the row contributes nothing to the table — either the
exclusion filter skipped it, or in Python the row would raise
(`IndexError` / `ValueError`) and abort the whole run.  `processRow` below
keeps those two outcomes apart, and `processRow_ok_rowTriple` proves this
projection agrees with it on every run in which no row raises. -/
def rowTriple (key_dimension_indices : List Nat) (date_dimension_index : Nat)
    (metric_index : Nat) (excluded_values : List String) (row : ResponseRow) :
    Option (GroupKey × Int × Int) :=
  let key_parts := key_dimension_indices.map
    (fun i => (row.dimension_values.getD i ⟨""⟩).value)
  if key_parts ≠ [] ∧ key_parts.headD "" ∈ excluded_values then none
  else do
    let key ← mkKey key_parts
    let d ← parseYYYYMMDD (row.dimension_values.getD date_dimension_index ⟨""⟩).value
    let sessions ← intOfString? (row.metric_values.getD metric_index ⟨""⟩).value
    pure (key, week_start_date d, sessions)

/-- Inner dict of `pivoted_data`: week-start date ↦ accumulated value,
insertion ordered. -/
abbrev InnerRow := List (Int × Int)

/-- Accumulate `v` at week `w`: `pivoted_data[key][week_start_date] += v`
on the inner dict (update in place, or append a fresh entry). -/
def bumpInner (inner : InnerRow) (w v : Int) : InnerRow :=
  match inner with
  | [] => [(w, v)]
  | (w0, v0) :: rest =>
      if w0 = w then (w0, v0 + v) :: rest else (w0, v0) :: bumpInner rest w v

/-- Outer dict of `pivoted_data`: group key ↦ inner dict, insertion ordered. -/
abbrev AggTable := List (GroupKey × InnerRow)

/-- Accumulate `v` at `(k, w)`: `pivoted_data[key][week_start_date] += v`
on the outer dict. -/
def bumpTable (t : AggTable) (k : GroupKey) (w v : Int) : AggTable :=
  match t with
  | [] => [(k, [(w, v)])]
  | (k0, inner) :: rest =>
      if k0 = k then (k0, bumpInner inner w v) :: rest
      else (k0, inner) :: bumpTable rest k w v

/-- The Aggregator: fold the normalized triples through the nested-dict
accumulator (`for row in response.rows: ... pivoted_data[key][week] += v`). -/
def aggregate (triples : List (GroupKey × Int × Int)) : AggTable :=
  triples.foldl (fun t r => bumpTable t r.1 r.2.1 r.2.2) []

/-- Lookup in an inner dict. -/
def lookupInner (inner : InnerRow) (w : Int) : Option Int :=
  match inner with
  | [] => none
  | (w0, v) :: rest => if w0 = w then some v else lookupInner rest w

/-- Lookup of a group's inner dict. -/
def lookupRow (t : AggTable) (k : GroupKey) : Option InnerRow :=
  match t with
  | [] => none
  | (k0, inner) :: rest => if k0 = k then some inner else lookupRow rest k

/-- The mapping a MetricTable denotes: value stored at `(k, w)`, absent pairs
being implicitly zero. -/
def cellValue (t : AggTable) (k : GroupKey) (w : Int) : Int :=
  ((lookupRow t k).bind (fun inner => lookupInner inner w)).getD 0

/-- Reference sum: total value of the triples that hit cell `(k, w)`. -/
def sumMatching (l : List (GroupKey × Int × Int)) (k : GroupKey) (w : Int) : Int :=
  ((l.filter (fun r => decide (r.1 = k ∧ r.2.1 = w))).map (fun r => r.2.2)).sum

theorem lookupInner_bumpInner (inner : InnerRow) (w' v w : Int) :
    lookupInner (bumpInner inner w' v) w =
      if w' = w then some ((lookupInner inner w).getD 0 + v)
      else lookupInner inner w := by
  induction inner with
  | nil =>
      by_cases h : w' = w <;> simp [bumpInner, lookupInner, h]
  | cons hd rest ih =>
      obtain ⟨w0, v0⟩ := hd
      by_cases h0 : w0 = w'
      · subst h0
        by_cases h : w0 = w
        · subst h; simp [bumpInner, lookupInner]
        · simp [bumpInner, lookupInner, h]
      · by_cases h : w0 = w
        · subst h
          have hne : w' ≠ w0 := fun hc => h0 hc.symm
          simp [bumpInner, lookupInner, h0, hne]
        · simp [bumpInner, lookupInner, h0, h, ih]

theorem cellValue_bumpTable (t : AggTable) (k' : GroupKey) (w' v : Int)
    (k : GroupKey) (w : Int) :
    cellValue (bumpTable t k' w' v) k w =
      cellValue t k w + if k' = k ∧ w' = w then v else 0 := by
  induction t with
  | nil =>
      by_cases hk : k' = k
      · subst hk
        by_cases hw : w' = w
        · subst hw; simp [bumpTable, cellValue, lookupRow, lookupInner]
        · simp [bumpTable, cellValue, lookupRow, lookupInner, hw]
      · simp [bumpTable, cellValue, lookupRow, hk]
  | cons hd rest ih =>
      obtain ⟨k0, inner⟩ := hd
      by_cases h0 : k0 = k'
      · subst h0
        by_cases hk : k0 = k
        · subst hk
          simp only [bumpTable, cellValue, lookupRow, eq_self_iff_true, if_true,
            true_and, Option.some_bind]
          rw [lookupInner_bumpInner]
          by_cases hw : w' = w
          · subst hw; simp
          · simp [hw]
        · have hc : ¬ (k0 = k ∧ w' = w) := fun hc => hk hc.1
          simp [bumpTable, cellValue, lookupRow, hk, hc]
      · by_cases hk : k0 = k
        · subst hk
          have hc : ¬ (k' = k0 ∧ w' = w) := fun hc => h0 hc.1.symm
          simp [bumpTable, cellValue, lookupRow, h0, hc]
        · simp [bumpTable, cellValue, lookupRow, h0, hk] at ih ⊢
          exact ih

theorem cellValue_foldl (l : List (GroupKey × Int × Int)) (t : AggTable)
    (k : GroupKey) (w : Int) :
    cellValue (l.foldl (fun t r => bumpTable t r.1 r.2.1 r.2.2) t) k w =
      cellValue t k w + sumMatching l k w := by
  induction l generalizing t with
  | nil => simp [sumMatching]
  | cons hd rest ih =>
      simp only [List.foldl_cons, ih, cellValue_bumpTable]
      by_cases h : hd.1 = k ∧ hd.2.1 = w
      · simp only [sumMatching, List.filter_cons, decide_eq_true_eq, if_pos h,
          List.map_cons, List.sum_cons] at ih ⊢
        simp [h]
        ring
      · simp only [sumMatching, List.filter_cons, decide_eq_true_eq, if_neg h] at ih ⊢
        simp [h]

theorem cellValue_aggregate (l : List (GroupKey × Int × Int)) (k : GroupKey)
    (w : Int) : cellValue (aggregate l) k w = sumMatching l k w := by
  simpa [cellValue, lookupRow] using cellValue_foldl l [] k w

theorem sumMatching_perm {l₁ l₂ : List (GroupKey × Int × Int)}
    (h : l₁.Perm l₂) (k : GroupKey) (w : Int) :
    sumMatching l₁ k w = sumMatching l₂ k w :=
  ((h.filter _).map _).sum_eq

/-- C3: aggregation is order-independent — for every sequence of normalized
`(GroupKey, WeekKey, value)` triples and every permutation of it, the
nested-dict accumulation denotes the same mapping from `(GroupKey, WeekKey)`
to summed value. -/
theorem aggregation_order_independent (l₁ l₂ : List (GroupKey × Int × Int))
    (h : l₁.Perm l₂) (k : GroupKey) (w : Int) :
    cellValue (aggregate l₁) k w = cellValue (aggregate l₂) k w := by
  rw [cellValue_aggregate, cellValue_aggregate]
  exact sumMatching_perm h k w

/-- Witness for C3 at a concrete pair of permuted inputs. -/
theorem aggregation_order_independent_witness :
    cellValue (aggregate [(GroupKey.str "A", 19722, 10), (GroupKey.str "B", 19722, 3)])
        (GroupKey.str "A") 19722 =
      cellValue (aggregate [(GroupKey.str "B", 19722, 3), (GroupKey.str "A", 19722, 10)])
        (GroupKey.str "A") 19722 :=
  aggregation_order_independent _ _ (List.Perm.swap _ _ _) _ _

/-!
Window Selector (`lib/ga_reporter.py` lines 58-66): take the 6 most recent
distinct week columns present, project onto them, `fillna(0)`.
`pd.DataFrame.from_dict(pivoted_data, orient='index')` has one column per
week key occurring in some inner dict; `sorted(df.columns, reverse=True)[:6]`
selects the window.
-/

/-- Distinct week keys present in the table (the DataFrame's columns). -/
def weeksOf (t : AggTable) : List Int :=
  (t.flatMap (fun r => r.2.map Prod.fst)).dedup

/-- Source: `all_weeks = sorted(df.columns, reverse=True);
sorted_weeks = all_weeks[:6]`. -/
def sortedWeeksOf (t : AggTable) : List Int :=
  (List.insertionSort (· ≥ ·) (weeksOf t)).take 6

/-- A windowed, dense table: ordered week columns and one cell list per
group row. -/
structure WeekTable where
  cols : List Int
  rows : List (GroupKey × List Int)
deriving DecidableEq, Repr

/-- Source: `df = df[sorted_weeks]; return df.fillna(0).astype(int)` —
project every row onto the selected columns, absent cells becoming 0. -/
def windowTable (t : AggTable) : WeekTable :=
  ⟨sortedWeeksOf t,
   t.map (fun r => (r.1, (sortedWeeksOf t).map (fun w => (lookupInner r.2 w).getD 0)))⟩

theorem lookupRow_of_nodup (t : AggTable) (hk : (t.map Prod.fst).Nodup)
    {k : GroupKey} {inner : InnerRow} (h : (k, inner) ∈ t) :
    lookupRow t k = some inner := by
  induction t with
  | nil => cases h
  | cons hd rest ih =>
      obtain ⟨k0, i0⟩ := hd
      simp only [List.map_cons, List.nodup_cons] at hk
      rcases List.mem_cons.mp h with h | h
      · obtain ⟨rfl, rfl⟩ := Prod.mk.injEq .. ▸ h
        simp [lookupRow]
      · have hne : k0 ≠ k := by
          intro e; subst e
          exact hk.1 (List.mem_map_of_mem Prod.fst h)
        simp [lookupRow, hne, ih hk.2 h]

theorem lookupInner_of_nodup (inner : InnerRow)
    (hk : (inner.map Prod.fst).Nodup) {w v : Int} (h : (w, v) ∈ inner) :
    lookupInner inner w = some v := by
  induction inner with
  | nil => cases h
  | cons hd rest ih =>
      obtain ⟨w0, v0⟩ := hd
      simp only [List.map_cons, List.nodup_cons] at hk
      rcases List.mem_cons.mp h with h | h
      · obtain ⟨rfl, rfl⟩ := Prod.mk.injEq .. ▸ h
        simp [lookupInner]
      · have hne : w0 ≠ w := by
          intro e; subst e
          exact hk.1 (List.mem_map_of_mem Prod.fst h)
        simp [lookupInner, hne, ih hk.2 h]

theorem lookupInner_eq_none (inner : InnerRow) {w : Int}
    (h : ∀ v, (w, v) ∉ inner) : lookupInner inner w = none := by
  induction inner with
  | nil => rfl
  | cons hd rest ih =>
      obtain ⟨w0, v0⟩ := hd
      have hne : w0 ≠ w := by
        intro e; subst e; exact h v0 (List.mem_cons_self _ _)
      simp only [lookupInner, if_neg hne]
      exact ih (fun v hv => h v (List.mem_cons_of_mem _ hv))

theorem cellValue_eq_lookupInner {t : AggTable}
    (hkeys : (t.map Prod.fst).Nodup) {r : GroupKey × InnerRow} (hr : r ∈ t)
    (w : Int) : cellValue t r.1 w = (lookupInner r.2 w).getD 0 := by
  obtain ⟨k, inner⟩ := r
  simp [cellValue, lookupRow_of_nodup t hkeys hr]

/-- C4: for every non-empty MetricTable, the window selection keeps exactly
`min 6 (number of distinct weeks)` week columns, sorted descending, all of
which were present in the input (never fabricating a week); every week left
out of the window is no more recent than every kept one; the group rows are
unchanged in identity and order; each output row holds, per kept week, the
input cell value where one was present and 0 where the `(group, week)` pair
was absent. -/
theorem window_selection_spec (t : AggTable) (_ht : t ≠ [])
    (hkeys : (t.map Prod.fst).Nodup)
    (hinner : ∀ r ∈ t, (r.2.map Prod.fst).Nodup) :
    (windowTable t).cols.length = min 6 (weeksOf t).length ∧
    List.Sorted (· ≥ ·) (windowTable t).cols ∧
    (∀ w ∈ (windowTable t).cols, w ∈ weeksOf t) ∧
    (∀ w ∈ weeksOf t, w ∉ (windowTable t).cols →
      ∀ w' ∈ (windowTable t).cols, w ≤ w') ∧
    (windowTable t).rows.map Prod.fst = t.map Prod.fst ∧
    (∀ r ∈ t,
      (r.1, (windowTable t).cols.map (fun w => cellValue t r.1 w)) ∈
        (windowTable t).rows) ∧
    (∀ r ∈ t, ∀ w v, (w, v) ∈ r.2 → cellValue t r.1 w = v) ∧
    (∀ r ∈ t, ∀ w, (∀ v, (w, v) ∉ r.2) → cellValue t r.1 w = 0) := by
  haveI : IsTotal Int (· ≥ ·) := ⟨fun a b => le_total b a⟩
  haveI : IsTrans Int (· ≥ ·) := ⟨fun a b c h1 h2 => le_trans h2 h1⟩
  have hperm := List.perm_insertionSort (α := Int) (· ≥ ·) (weeksOf t)
  have hsorted := List.sorted_insertionSort (α := Int) (· ≥ ·) (weeksOf t)
  refine ⟨?_, ?_, ?_, ?_, ?_, ?_, ?_, ?_⟩
  · simp [windowTable, sortedWeeksOf, List.length_take, hperm.length_eq]
  · exact List.Pairwise.sublist (List.take_sublist 6 _) hsorted
  · intro w hw
    exact hperm.mem_iff.mp ((List.take_sublist 6 _).subset hw)
  · intro w hw hnot w' hw'
    have hwS : w ∈ List.insertionSort (· ≥ ·) (weeksOf t) := hperm.mem_iff.mpr hw
    have hsplit := List.take_append_drop 6 (List.insertionSort (· ≥ ·) (weeksOf t))
    have hdrop : w ∈ (List.insertionSort (· ≥ ·) (weeksOf t)).drop 6 := by
      rcases (List.mem_append.mp (hsplit ▸ hwS)) with h | h
      · exact absurd h hnot
      · exact h
    have := (List.pairwise_append.mp (hsplit ▸ hsorted)).2.2
    exact this w' hw' w hdrop
  · simp [windowTable]
  · intro r hr
    have hcells :
        (sortedWeeksOf t).map (fun w => cellValue t r.1 w) =
          (sortedWeeksOf t).map (fun w => (lookupInner r.2 w).getD 0) :=
      List.map_congr_left (fun w _ => cellValue_eq_lookupInner hkeys hr w)
    simpa [windowTable, hcells] using List.mem_map_of_mem
      (fun r => (r.1, (sortedWeeksOf t).map (fun w => (lookupInner r.2 w).getD 0))) hr
  · intro r hr w v hv
    rw [cellValue_eq_lookupInner hkeys hr w,
      lookupInner_of_nodup r.2 (hinner r hr) hv]
    rfl
  · intro r hr w hv
    rw [cellValue_eq_lookupInner hkeys hr w, lookupInner_eq_none r.2 hv]
    rfl

/-- Witness for C4 at a concrete two-group table. -/
theorem window_selection_spec_witness :
    [(GroupKey.str "A", [((19722 : Int), (5 : Int)), (19715, 2)]),
     (GroupKey.str "B", [(19715, 7)])] ≠ [] ∧
    cellValue [(GroupKey.str "A", [((19722 : Int), (5 : Int)), (19715, 2)]),
      (GroupKey.str "B", [(19715, 7)])] (GroupKey.str "B") 19722 = 0 := by
  have h := window_selection_spec
    [(GroupKey.str "A", [((19722 : Int), (5 : Int)), (19715, 2)]),
     (GroupKey.str "B", [(19715, 7)])]
    (by decide) (by decide) (by decide)
  refine ⟨by decide, ?_⟩
  exact h.2.2.2.2.2.2.2 (GroupKey.str "B", [(19715, 7)]) (by decide) 19722
    (by intro v hv; simp at hv)

/-- Full `process_to_weekly_df` (`lib/ga_reporter.py` lines 30-66), success
projection: normalize and accumulate the response rows; if the accumulated
table is empty return the empty DataFrame — the explicit "no data" signal
the spec names `NoDataError` — before any window selection; otherwise
select the window.  `process_to_weekly_df_checked` below is the same
function with Python's raise paths made explicit, and agrees with this one
whenever no row raises. -/
def process_to_weekly_df (response : RunReportResponse)
    (key_dimension_indices : List Nat) (date_dimension_index : Nat)
    (metric_index : Nat) (excluded_values : List String) : WeekTable :=
  let df := aggregate (response.rows.filterMap
    (rowTriple key_dimension_indices date_dimension_index metric_index excluded_values))
  if df.isEmpty then ⟨[], []⟩ else windowTable df

/-- An error a processing run can raise: `datetime.strptime` and `int()`
raise `ValueError` on malformed input, list subscripts raise `IndexError`
when out of range.  Either aborts the report run. -/
inductive PyError where
  | valueError
  | indexError
deriving DecidableEq, Repr

/-- Python list subscript `l[i]`: the element, or an uncaught `IndexError`. -/
def pyIndex {α : Type} (l : List α) (i : Nat) : Except PyError α :=
  match l[i]? with
  | some a => .ok a
  | none => .error .indexError

/-- The key-parts comprehension
`[row.dimension_values[i].value for i in key_dimension_indices]`
(line 39), raising `IndexError` on an out-of-range index. -/
def keyParts (dims : List DimensionValue) :
    List Nat → Except PyError (List String)
  | [] => .ok []
  | i :: is =>
      match pyIndex dims i with
      | .error e => .error e
      | .ok dv =>
          match keyParts dims is with
          | .error e => .error e
          | .ok rest => .ok (dv.value :: rest)

/-- Loop body of `process_to_weekly_df` (lines 37-54) with Python's error
semantics, in source order: the key-parts comprehension (line 39, can raise
`IndexError`); the exclusion filter (`continue`, modelled `.ok none`); the
key build (line 45, `key_parts[0]` raises `IndexError` on an empty list);
the date subscript (line 46) and metric subscript plus `int()` (line 47,
`ValueError` on a malformed metric); `strptime` (line 49, `ValueError` on a
malformed date); then the week bucket. -/
def processRow (key_dimension_indices : List Nat) (date_dimension_index : Nat)
    (metric_index : Nat) (excluded_values : List String) (row : ResponseRow) :
    Except PyError (Option (GroupKey × Int × Int)) :=
  match keyParts row.dimension_values key_dimension_indices with
  | .error e => .error e
  | .ok key_parts =>
      if key_parts ≠ [] ∧ key_parts.headD "" ∈ excluded_values then .ok none
      else
        match mkKey key_parts with
        | none => .error .indexError
        | some key =>
            match pyIndex row.dimension_values date_dimension_index with
            | .error e => .error e
            | .ok dv =>
                match pyIndex row.metric_values metric_index with
                | .error e => .error e
                | .ok mv =>
                    match intOfString? mv.value with
                    | none => .error .valueError
                    | some sessions =>
                        match parseYYYYMMDD dv.value with
                        | none => .error .valueError
                        | some d =>
                            .ok (some (key, week_start_date d, sessions))

/-- The whole `for row in response.rows` loop: the first row that raises
aborts the run (the partially built dict never escapes); otherwise the kept
triples are collected in row order. -/
def normalizeRows (key_dimension_indices : List Nat)
    (date_dimension_index : Nat) (metric_index : Nat)
    (excluded_values : List String) :
    List ResponseRow → Except PyError (List (GroupKey × Int × Int))
  | [] => .ok []
  | row :: rest =>
      match processRow key_dimension_indices date_dimension_index metric_index
          excluded_values row with
      | .error e => .error e
      | .ok none =>
          normalizeRows key_dimension_indices date_dimension_index metric_index
            excluded_values rest
      | .ok (some trip) =>
          match normalizeRows key_dimension_indices date_dimension_index
              metric_index excluded_values rest with
          | .error e => .error e
          | .ok triples => .ok (trip :: triples)

/-- `process_to_weekly_df` with Python's error semantics: a
`ValueError` / `IndexError` raised while normalizing any row aborts the
whole call; otherwise the empty table — the spec's `NoDataError` signal —
is returned before any window selection, or the windowed table. -/
def process_to_weekly_df_checked (response : RunReportResponse)
    (key_dimension_indices : List Nat) (date_dimension_index : Nat)
    (metric_index : Nat) (excluded_values : List String) :
    Except PyError WeekTable :=
  match normalizeRows key_dimension_indices date_dimension_index metric_index
      excluded_values response.rows with
  | .error e => .error e
  | .ok triples =>
      let df := aggregate triples
      if df.isEmpty then .ok ⟨[], []⟩ else .ok (windowTable df)

/-- Outcome of one report script run: a graceful no-data exit, or a rendered
report built from a windowed table. -/
inductive ReportOutcome where
  | noData
  | report (df : WeekTable)
deriving DecidableEq, Repr

/-- Model of `overview.py` `main` after the fetch, with Python's error
semantics: an error raised during processing propagates out of `main`
uncaught (the run crashes); on an empty DataFrame the script prints a
message and calls `sys.exit()` without writing a report; otherwise it
renders the report. -/
def overview_main (response : RunReportResponse) :
    Except PyError ReportOutcome :=
  match process_to_weekly_df_checked response [0] 1 0 [] with
  | .error e => .error e
  | .ok df => if df.rows.isEmpty then .ok .noData else .ok (.report df)

theorem pyIndex_ok {α : Type} {l : List α} {i : Nat} {a : α} (d : α)
    (h : pyIndex l i = .ok a) : l.getD i d = a := by
  unfold pyIndex at h
  split at h
  · rename_i x hx
    rw [List.getD_eq_getElem?_getD, hx]
    simpa using Except.ok.inj h
  · exact absurd h (by simp)

theorem keyParts_ok {dims : List DimensionValue} {idxs : List Nat}
    {parts : List String} (h : keyParts dims idxs = .ok parts) :
    parts = idxs.map (fun i => (dims.getD i ⟨""⟩).value) := by
  induction idxs generalizing parts with
  | nil =>
      simp only [keyParts] at h
      simpa using (Except.ok.inj h).symm
  | cons i is ih =>
      cases hpi : pyIndex dims i with
      | error e => simp [keyParts, hpi] at h
      | ok dv =>
          cases hkp : keyParts dims is with
          | error e => simp [keyParts, hpi, hkp] at h
          | ok rest =>
              simp only [keyParts, hpi, hkp] at h
              obtain rfl := (Except.ok.inj h).symm
              have hdv : dims.getD i ⟨""⟩ = dv := pyIndex_ok ⟨""⟩ hpi
              rw [List.map_cons, hdv, ← ih hkp]

theorem processRow_ok_rowTriple {idxs : List Nat} {dIdx mIdx : Nat}
    {excl : List String} {row : ResponseRow}
    {o : Option (GroupKey × Int × Int)}
    (h : processRow idxs dIdx mIdx excl row = .ok o) :
    rowTriple idxs dIdx mIdx excl row = o := by
  unfold processRow at h
  cases hkp : keyParts row.dimension_values idxs with
  | error e => simp [hkp] at h
  | ok key_parts =>
      simp only [hkp] at h
      have hparts := keyParts_ok hkp
      simp only [rowTriple]
      rw [← hparts]
      by_cases hcond : key_parts ≠ [] ∧ key_parts.headD "" ∈ excl
      · rw [if_pos hcond] at h ⊢
        exact Except.ok.inj h
      · rw [if_neg hcond] at h ⊢
        cases hmk : mkKey key_parts with
        | none => simp [hmk] at h
        | some key =>
            simp only [hmk] at h
            cases hdv : pyIndex row.dimension_values dIdx with
            | error e => simp [hdv] at h
            | ok dv =>
                simp only [hdv] at h
                cases hmv : pyIndex row.metric_values mIdx with
                | error e => simp [hmv] at h
                | ok mv =>
                    simp only [hmv] at h
                    cases hint : intOfString? mv.value with
                    | none => simp [hint] at h
                    | some sessions =>
                        simp only [hint] at h
                        cases hdate : parseYYYYMMDD dv.value with
                        | none => simp [hdate] at h
                        | some d =>
                            simp only [hdate] at h
                            obtain rfl := (Except.ok.inj h).symm
                            have hdv' : row.dimension_values.getD dIdx ⟨""⟩ = dv :=
                              pyIndex_ok ⟨""⟩ hdv
                            have hmv' : row.metric_values.getD mIdx ⟨""⟩ = mv :=
                              pyIndex_ok ⟨""⟩ hmv
                            simp only [hmk, hdv', hmv', hdate, hint,
                              Option.bind_eq_bind, Option.some_bind,
                              Option.pure_def]

theorem normalizeRows_ok_filterMap {idxs : List Nat} {dIdx mIdx : Nat}
    {excl : List String} {rows : List ResponseRow}
    {triples : List (GroupKey × Int × Int)}
    (h : normalizeRows idxs dIdx mIdx excl rows = .ok triples) :
    triples = rows.filterMap (rowTriple idxs dIdx mIdx excl) := by
  induction rows generalizing triples with
  | nil =>
      simp only [normalizeRows] at h
      simpa using (Except.ok.inj h).symm
  | cons row rest ih =>
      cases hpr : processRow idxs dIdx mIdx excl row with
      | error e => simp [normalizeRows, hpr] at h
      | ok o =>
          have hrt := processRow_ok_rowTriple hpr
          cases o with
          | none =>
              simp only [normalizeRows, hpr] at h
              simp [List.filterMap_cons, hrt, ih h]
          | some trip =>
              cases hrest : normalizeRows idxs dIdx mIdx excl rest with
              | error e => simp [normalizeRows, hpr, hrest] at h
              | ok ts =>
                  simp only [normalizeRows, hpr, hrest] at h
                  obtain rfl := (Except.ok.inj h).symm
                  simp [List.filterMap_cons, hrt, ih hrest]

theorem process_to_weekly_df_checked_ok {response : RunReportResponse}
    {idxs : List Nat} {dIdx mIdx : Nat} {excl : List String}
    {triples : List (GroupKey × Int × Int)}
    (h : normalizeRows idxs dIdx mIdx excl response.rows = .ok triples) :
    process_to_weekly_df_checked response idxs dIdx mIdx excl =
      .ok (process_to_weekly_df response idxs dIdx mIdx excl) := by
  obtain rfl := normalizeRows_ok_filterMap h
  simp only [process_to_weekly_df_checked, process_to_weekly_df, h]
  split <;> rfl

/-- The raise path is preserved, not collapsed into a skipped row: a
malformed date string makes the overview run abort with `ValueError`, and
is not mistaken for the graceful no-data exit. -/
theorem malformed_date_crashes :
    overview_main ⟨[⟨[⟨"Direct"⟩, ⟨"baddate"⟩], [⟨"5"⟩]⟩]⟩ =
      .error .valueError := rfl

/-- C7: when normalization completes without raising and yields an empty
row sequence (zero groups), the processing step returns the empty-table
"no data" signal — the spec's `NoDataError` — before any window selection,
and the overview caller recovers it as a graceful no-data exit: no report
is produced and no error escapes. -/
theorem no_data_graceful (response : RunReportResponse)
    (h : normalizeRows [0] 1 0 [] response.rows = .ok []) :
    process_to_weekly_df_checked response [0] 1 0 [] = .ok ⟨[], []⟩ ∧
    overview_main response = .ok .noData ∧
    (∀ df, overview_main response ≠ .ok (.report df)) ∧
    (∀ e, overview_main response ≠ .error e) := by
  have h1 : process_to_weekly_df_checked response [0] 1 0 [] = .ok ⟨[], []⟩ := by
    simp [process_to_weekly_df_checked, h, aggregate]
  refine ⟨h1, by simp [overview_main, h1], ?_, ?_⟩
  · intro df
    simp [overview_main, h1]
  · intro e
    simp [overview_main, h1]

/-- Witness for C7 at the empty response. -/
theorem no_data_graceful_witness :
    process_to_weekly_df_checked ⟨[]⟩ [0] 1 0 [] = .ok ⟨[], []⟩ ∧
    overview_main ⟨[]⟩ = .ok .noData ∧
    (∀ df, overview_main ⟨[]⟩ ≠ .ok (.report df)) ∧
    (∀ e, overview_main ⟨[]⟩ ≠ .error e) :=
  no_data_graceful ⟨[]⟩ rfl

theorem mem_fst_bumpTable {t : AggTable} {k : GroupKey} {w v : Int}
    {x : GroupKey} (hx : x ∈ (bumpTable t k w v).map Prod.fst) :
    x = k ∨ x ∈ t.map Prod.fst := by
  induction t with
  | nil => simpa [bumpTable] using hx
  | cons hd rest ih =>
      obtain ⟨k0, inner⟩ := hd
      by_cases h : k0 = k
      · subst h
        simp only [bumpTable, eq_self_iff_true, if_true, List.map_cons,
          List.mem_cons] at hx ⊢
        rcases hx with hx | hx
        · exact Or.inl hx
        · exact Or.inr (Or.inr hx)
      · simp only [bumpTable, if_neg h, List.map_cons, List.mem_cons] at hx ⊢
        rcases hx with hx | hx
        · exact Or.inr (Or.inl hx)
        · rcases ih hx with hx | hx
          · exact Or.inl hx
          · exact Or.inr (Or.inr hx)

theorem mem_fst_foldl (l : List (GroupKey × Int × Int)) (t : AggTable)
    {x : GroupKey}
    (hx : x ∈ (l.foldl (fun t r => bumpTable t r.1 r.2.1 r.2.2) t).map Prod.fst) :
    x ∈ t.map Prod.fst ∨ x ∈ l.map (fun r => r.1) := by
  induction l generalizing t with
  | nil => exact Or.inl hx
  | cons hd rest ih =>
      rcases ih (bumpTable t hd.1 hd.2.1 hd.2.2) hx with hx | hx
      · rcases mem_fst_bumpTable hx with hx | hx
        · exact Or.inr (by rw [List.map_cons, hx]; exact List.mem_cons_self _ _)
        · exact Or.inl hx
      · exact Or.inr (by rw [List.map_cons]; exact List.mem_cons_of_mem _ hx)

theorem mem_fst_aggregate {l : List (GroupKey × Int × Int)} {x : GroupKey}
    (hx : x ∈ (aggregate l).map Prod.fst) : x ∈ l.map (fun r => r.1) := by
  rcases mem_fst_foldl l [] hx with h | h
  · simp at h
  · exact h

theorem rowTriple_key (idxs : List Nat) (dIdx mIdx : Nat)
    (excl : List String) (row : ResponseRow) {k : GroupKey} {w v : Int}
    (h : rowTriple idxs dIdx mIdx excl row = some (k, w, v)) :
    mkKey (idxs.map (fun i => (row.dimension_values.getD i ⟨""⟩).value)) =
      some k := by
  unfold rowTriple at h
  by_cases hcond :
      (idxs.map (fun i => (row.dimension_values.getD i ⟨""⟩).value)) ≠ [] ∧
      (idxs.map (fun i => (row.dimension_values.getD i ⟨""⟩).value)).headD "" ∈ excl
  · rw [if_pos hcond] at h
    exact Option.noConfusion h
  · rw [if_neg hcond] at h
    simp only [Option.bind_eq_bind, Option.bind_eq_some, Option.pure_def,
      Option.some.injEq] at h
    obtain ⟨key, hkey, d, _, s, _, heq⟩ := h
    obtain ⟨rfl, -, -⟩ := Prod.mk.injEq .. ▸ heq
    exact hkey

theorem mkKey_shape {parts : List String} {k : GroupKey}
    (h : mkKey parts = some k) :
    (parts.length = 1 → ∃ s, k = .str s) ∧
    (2 ≤ parts.length → k = .tup parts) := by
  constructor
  · intro h1
    match parts, h1 with
    | [s], _ =>
        simp [mkKey] at h
        exact ⟨s, h.symm⟩
  · intro h2
    have hlt : 1 < parts.length := h2
    simp [mkKey, hlt] at h
    exact h.symm

theorem process_keys {response : RunReportResponse} {idxs : List Nat}
    {dIdx mIdx : Nat} {excl : List String} {p : GroupKey × List Int}
    (hp : p ∈ (process_to_weekly_df response idxs dIdx mIdx excl).rows) :
    ∃ row ∈ response.rows, ∃ w v,
      rowTriple idxs dIdx mIdx excl row = some (p.1, w, v) := by
  simp only [process_to_weekly_df] at hp
  split at hp
  · simp at hp
  · simp only [windowTable] at hp
    obtain ⟨r, hr, heq⟩ := List.mem_map.mp hp
    have hkey : p.1 ∈ (aggregate (response.rows.filterMap
        (rowTriple idxs dIdx mIdx excl))).map Prod.fst := by
      have : r.1 = p.1 := congrArg Prod.fst heq
      exact this ▸ List.mem_map_of_mem Prod.fst hr
    obtain ⟨trip, htrip, htk⟩ := List.mem_map.mp (mem_fst_aggregate hkey)
    obtain ⟨row, hrow, hrt⟩ := List.mem_filterMap.mp htrip
    refine ⟨row, hrow, trip.2.1, trip.2.2, ?_⟩
    rw [hrt]
    rw [show trip = (trip.1, trip.2.1, trip.2.2) from rfl, htk]

/-- C9: when `process_to_weekly_df` is called with exactly one key dimension
index, every group key of the resulting table is a bare dimension string;
with two or more key dimension indices, every group key is a tuple of as many
strings as there are indices. -/
theorem single_key_dimension_keys :
    (∀ (response : RunReportResponse) (i dIdx mIdx : Nat) (excl : List String),
      ∀ p ∈ (process_to_weekly_df response [i] dIdx mIdx excl).rows,
        ∃ s, p.1 = GroupKey.str s) ∧
    (∀ (response : RunReportResponse) (idxs : List Nat) (dIdx mIdx : Nat)
        (excl : List String), 2 ≤ idxs.length →
      ∀ p ∈ (process_to_weekly_df response idxs dIdx mIdx excl).rows,
        ∃ parts, parts.length = idxs.length ∧ p.1 = GroupKey.tup parts) := by
  constructor
  · intro response i dIdx mIdx excl p hp
    obtain ⟨row, _, w, v, hrt⟩ := process_keys hp
    exact (mkKey_shape (rowTriple_key _ _ _ _ _ hrt)).1 (by simp)
  · intro response idxs dIdx mIdx excl hlen p hp
    obtain ⟨row, _, w, v, hrt⟩ := process_keys hp
    refine ⟨idxs.map (fun i => (row.dimension_values.getD i ⟨""⟩).value),
      by simp, ?_⟩
    exact (mkKey_shape (rowTriple_key _ _ _ _ _ hrt)).2 (by simpa using hlen)

/-- Witness for C9: a one-dimension response yields a bare-string key, a
two-dimension response yields a pair key. -/
theorem single_key_dimension_keys_witness :
    (∃ s, (GroupKey.str "Direct", ([5] : List Int)).1 = GroupKey.str s) ∧
    (∃ parts, parts.length = ([0, 1] : List Nat).length ∧
      (GroupKey.tup ["Direct", "google"], ([5] : List Int)).1 =
        GroupKey.tup parts) :=
  ⟨single_key_dimension_keys.1 ⟨[⟨[⟨"Direct"⟩, ⟨"20240106"⟩], [⟨"5"⟩]⟩]⟩
      0 1 0 [] (GroupKey.str "Direct", [5]) (by decide),
   single_key_dimension_keys.2 ⟨[⟨[⟨"Direct"⟩, ⟨"google"⟩, ⟨"20240106"⟩], [⟨"5"⟩]⟩]⟩
      [0, 1] 2 0 [] (by decide) (GroupKey.tup ["Direct", "google"], [5]) (by decide)⟩

/-!
Embedding of the `campaign.py` reshaping steps: Top-N collapse with an
"Others" row (lines 102-124), chart projection (line 127) and Total row
(line 130).  Rows are keyed by `(campaign, source_medium)` pairs.
-/

/-- A campaign-report table: week columns (most recent first after
windowing) and rows keyed `(campaign, source_medium)`. -/
structure CTable where
  cols : List Int
  rows : List ((String × String) × List Int)
deriving DecidableEq, Repr

/-- Column-wise sum of rows (`df.sum()` / `df_others.sum()`): entry `j` is
the sum of every row's `j`-th cell. -/
def colSums (numCols : Nat) (rows : List ((String × String) × List Int)) :
    List Int :=
  (List.range numCols).map (fun j => (rows.map (fun r => r.2.getD j 0)).sum)

/-- Distinct campaigns of the table. -/
def campaignsOf (t : CTable) : List String :=
  (t.rows.map (fun r => r.1.1)).dedup

/-- Total of the anchor column (the most recent week, column index 0) over
all sub-rows of campaign `c`:
`df.groupby(level='Campaign')[most_recent_week].sum()`. -/
def anchorTotal (t : CTable) (c : String) : Int :=
  ((t.rows.filter (fun r => decide (r.1.1 = c))).map (fun r => r.2.getD 0 0)).sum

/-- Campaigns ranked by anchor total, descending:
`campaign_totals.sort_values(ascending=False)`.  The tie order in the source
is implementation-defined (pandas quicksort); any fixed choice models it. -/
def rankedCampaigns (t : CTable) : List String :=
  List.insertionSort (fun a b => anchorTotal t a ≥ anchorTotal t b) (campaignsOf t)

/-- Top-N Collapser (`campaign.py` lines 102-124).  With at most `n`
distinct campaigns the DataFrame is left untouched; otherwise the rows of
the top `n` campaigns are kept — regrouped into rank order with relative
order inside each campaign preserved, as `reindex(..., level='Campaign')`
does — and the remaining rows are summed column-wise into a single
`("Others", "")` row appended last. -/
def collapseTopN (n : Nat) (t : CTable) : CTable :=
  if (campaignsOf t).length ≤ n then t
  else
    let top := (rankedCampaigns t).take n
    let df_top := t.rows.filter (fun r => decide (r.1.1 ∈ top))
    let df_others := t.rows.filter (fun r => decide (r.1.1 ∉ top))
    let others_sum := colSums t.cols.length df_others
    let reordered :=
      (top.map (fun c => df_top.filter (fun r => decide (r.1.1 = c)))).flatten
    ⟨t.cols, reordered ++ [(("Others", ""), others_sum)]⟩

/-- Table-view projection: `df.loc[('Total', ''), :] = df.sum()` appends one
synthetic Total row holding the column-wise sum of all rows. -/
def tableView (t : CTable) : CTable :=
  ⟨t.cols, t.rows ++ [(("Total", ""), colSums t.cols.length t.rows)]⟩

/-- Code-point comparison of characters, as Python compares strings. -/
def strLeAux : List Char → List Char → Bool
  | [], _ => true
  | _ :: _, [] => false
  | a :: as, b :: bs =>
      if a.toNat < b.toNat then true
      else if b.toNat < a.toNat then false
      else strLeAux as bs

/-- Lexicographic code-point order on strings (Python / pandas string
comparison). -/
def strLe (a b : String) : Bool := strLeAux a.data b.data

/-- Chart-view projection: `df_for_chart = df.groupby(level='Campaign').sum()`.
pandas `groupby` sorts the group keys ascending (`sort=True` is the
default), so the chart rows are keyed by bare campaign strings in
lexicographic order, each holding the column-wise sum of that campaign's
sub-rows. -/
def chartView (t : CTable) : List (String × List Int) :=
  (List.insertionSort (fun a b => strLe a b = true) (campaignsOf t)).map
    (fun c => (c, colSums t.cols.length (t.rows.filter (fun r => decide (r.1.1 = c)))))

theorem strLeAux_total : ∀ x y : List Char,
    strLeAux x y = true ∨ strLeAux y x = true := by
  intro x
  induction x with
  | nil => intro y; left; rfl
  | cons a as ih =>
      intro y
      cases y with
      | nil => right; rfl
      | cons b bs =>
          simp only [strLeAux]
          rcases Nat.lt_trichotomy a.toNat b.toNat with h | h | h
          · left; simp [h]
          · have h1 : ¬ a.toNat < b.toNat := by omega
            have h2 : ¬ b.toNat < a.toNat := by omega
            rcases ih bs with hr | hr
            · left; simp [h1, h2, hr]
            · right; simp [h1, h2, hr]
          · right; simp [h, Nat.lt_asymm h]

theorem strLeAux_trans : ∀ x y z : List Char,
    strLeAux x y = true → strLeAux y z = true → strLeAux x z = true := by
  intro x
  induction x with
  | nil => intro y z _ _; rfl
  | cons a as ih =>
      intro y z h1 h2
      cases y with
      | nil => simp [strLeAux] at h1
      | cons b bs =>
          cases z with
          | nil => simp [strLeAux] at h2
          | cons c cs =>
              simp only [strLeAux] at h1 h2 ⊢
              by_cases hab : a.toNat < b.toNat
              · by_cases hbc : b.toNat < c.toNat
                · simp [show a.toNat < c.toNat by omega]
                · simp only [if_neg hbc] at h2
                  by_cases hcb : c.toNat < b.toNat
                  · simp [hcb] at h2
                  · simp [show a.toNat < c.toNat by omega]
              · simp only [if_neg hab] at h1
                by_cases hba : b.toNat < a.toNat
                · simp [hba] at h1
                · simp only [if_neg hba] at h1
                  by_cases hbc : b.toNat < c.toNat
                  · simp [show a.toNat < c.toNat by omega]
                  · simp only [if_neg hbc] at h2
                    by_cases hcb : c.toNat < b.toNat
                    · simp [hcb] at h2
                    · simp only [if_neg hcb] at h2
                      have hac : ¬ a.toNat < c.toNat := by omega
                      have hca : ¬ c.toNat < a.toNat := by omega
                      simp [hac, hca, ih bs cs h1 h2]

theorem colSums_getD (numCols : Nat)
    (rows : List ((String × String) × List Int)) {j : Nat}
    (hj : j < numCols) :
    (colSums numCols rows).getD j 0 = (rows.map (fun r => r.2.getD j 0)).sum := by
  simp [colSums, List.getD_eq_getElem?_getD, List.getElem?_map,
    List.getElem?_range, hj]

theorem mem_campaignsOf {t : CTable} {r : (String × String) × List Int}
    (hr : r ∈ t.rows) : r.1.1 ∈ campaignsOf t :=
  List.mem_dedup.mpr (List.mem_map_of_mem _ hr)

/-- C2: the Top-N collapse leaves the table untouched (in particular with no
`("Others", "")` row) when there are at most `n` distinct campaigns; with
more than `n`, the ranking is a permutation of the distinct campaigns sorted
descending by anchor-column total, the rows kept before the last row are
exactly the input rows whose campaign is among the top `n` of that ranking,
exactly one `("Others", "")` row exists and it is positioned last, and its
value in every column is the sum of the excluded rows' values in that
column. -/
theorem topn_collapse_spec (n : Nat) (t : CTable)
    (hno : "Others" ∉ campaignsOf t) :
    ((campaignsOf t).length ≤ n →
      collapseTopN n t = t ∧
      ∀ r ∈ (collapseTopN n t).rows, r.1 ≠ ("Others", "")) ∧
    (n < (campaignsOf t).length →
      List.Sorted (fun a b => anchorTotal t a ≥ anchorTotal t b)
        (rankedCampaigns t) ∧
      (rankedCampaigns t).Perm (campaignsOf t) ∧
      (∀ r, r ∈ (collapseTopN n t).rows.dropLast ↔
        r ∈ t.rows ∧ r.1.1 ∈ (rankedCampaigns t).take n) ∧
      (collapseTopN n t).rows.countP
        (fun r => decide (r.1 = ("Others", ""))) = 1 ∧
      ∃ cs, (collapseTopN n t).rows.getLast? = some ((("Others", ""), cs)) ∧
        cs.length = t.cols.length ∧
        ∀ j, j < t.cols.length → cs.getD j 0 =
          ((t.rows.filter (fun r =>
              decide (r.1.1 ∉ (rankedCampaigns t).take n))).map
            (fun r => r.2.getD j 0)).sum) := by
  haveI : IsTotal String (fun a b => anchorTotal t a ≥ anchorTotal t b) :=
    ⟨fun a b => le_total (anchorTotal t b) (anchorTotal t a)⟩
  haveI : IsTrans String (fun a b => anchorTotal t a ≥ anchorTotal t b) :=
    ⟨fun _ _ _ h1 h2 => le_trans h2 h1⟩
  constructor
  · intro hle
    have heq : collapseTopN n t = t := by
      simp [collapseTopN, hle]
    refine ⟨heq, ?_⟩
    intro r hr hcontra
    rw [heq] at hr
    have : r.1.1 ∈ campaignsOf t := mem_campaignsOf hr
    rw [hcontra] at this
    exact hno this
  · intro hgt
    have hgt' : ¬ (campaignsOf t).length ≤ n := by omega
    have hperm : (rankedCampaigns t).Perm (campaignsOf t) :=
      List.perm_insertionSort _ _
    have hrows : (collapseTopN n t).rows =
        (((rankedCampaigns t).take n).map (fun c =>
          (t.rows.filter (fun r =>
            decide (r.1.1 ∈ (rankedCampaigns t).take n))).filter
              (fun r => decide (r.1.1 = c)))).flatten ++
        [(("Others", ""), colSums t.cols.length
          (t.rows.filter (fun r =>
            decide (r.1.1 ∉ (rankedCampaigns t).take n))))] := by
      simp [collapseTopN, hgt']
    have hmem : ∀ r, r ∈ (collapseTopN n t).rows.dropLast ↔
        r ∈ t.rows ∧ r.1.1 ∈ (rankedCampaigns t).take n := by
      intro r
      rw [hrows, List.dropLast_concat]
      constructor
      · intro hr
        obtain ⟨l, hl, hrl⟩ := List.mem_flatten.mp hr
        obtain ⟨c, hc, rfl⟩ := List.mem_map.mp hl
        obtain ⟨hdf, hceq⟩ := List.mem_filter.mp hrl
        obtain ⟨hrt, htop⟩ := List.mem_filter.mp hdf
        exact ⟨hrt, of_decide_eq_true htop⟩
      · rintro ⟨hrt, hrtop⟩
        refine List.mem_flatten.mpr
          ⟨(t.rows.filter (fun r =>
              decide (r.1.1 ∈ (rankedCampaigns t).take n))).filter
            (fun s => decide (s.1.1 = r.1.1)), ?_, ?_⟩
        · exact List.mem_map_of_mem _ hrtop
        · exact List.mem_filter.mpr
            ⟨List.mem_filter.mpr ⟨hrt, decide_eq_true hrtop⟩,
             decide_eq_true rfl⟩
    have hnotop : ∀ r, r ∈ (collapseTopN n t).rows.dropLast →
        r.1 ≠ ("Others", "") := by
      intro r hr hcontra
      obtain ⟨hrt, hrtop⟩ := (hmem r).mp hr
      have : r.1.1 ∈ rankedCampaigns t :=
        (List.take_sublist n _).subset hrtop
      have : r.1.1 ∈ campaignsOf t := hperm.mem_iff.mp this
      rw [hcontra] at this
      exact hno this
    refine ⟨List.sorted_insertionSort _ _, hperm, hmem, ?_, ?_⟩
    · rw [hrows, List.countP_append]
      have h0 : (((rankedCampaigns t).take n).map (fun c =>
          (t.rows.filter (fun r =>
            decide (r.1.1 ∈ (rankedCampaigns t).take n))).filter
              (fun r => decide (r.1.1 = c)))).flatten.countP
            (fun r => decide (r.1 = ("Others", ""))) = 0 := by
        refine List.countP_eq_zero.mpr ?_
        intro r hr
        have hr' : r ∈ (collapseTopN n t).rows.dropLast := by
          rw [hrows, List.dropLast_concat]; exact hr
        simpa using hnotop r hr'
      rw [h0]
      simp
    · refine ⟨colSums t.cols.length
        (t.rows.filter (fun r =>
          decide (r.1.1 ∉ (rankedCampaigns t).take n))), ?_, ?_, ?_⟩
      · rw [hrows]
        simp [List.getLast?_append]
      · simp [colSums]
      · intro j hj
        exact colSums_getD t.cols.length _ hj

/-- Witness for C2: a one-campaign table passes through untouched with
`n = 5`; a two-campaign table collapsed with `n = 1` gets exactly one
Others row. -/
theorem topn_collapse_spec_witness :
    collapseTopN 5 ⟨[0], [(("a", ""), [3])]⟩ = ⟨[0], [(("a", ""), [3])]⟩ ∧
    (collapseTopN 1 ⟨[0], [(("b", ""), [5]), (("a", ""), [3])]⟩).rows.countP
      (fun r => decide (r.1 = ("Others", ""))) = 1 :=
  ⟨((topn_collapse_spec 5 ⟨[0], [(("a", ""), [3])]⟩ (by decide)).1
      (by decide)).1,
   ((topn_collapse_spec 1 ⟨[0], [(("b", ""), [5]), (("a", ""), [3])]⟩
      (by decide)).2 (by decide)).2.2.2.1⟩

/-- C5: the table view appends exactly one `("Total", "")` row, positioned
last, whose value in every week column equals the column-wise sum of all
the other rows (which are exactly the input rows — the Others row included
when present). -/
theorem total_row_spec (t : CTable)
    (hno : ∀ r ∈ t.rows, r.1 ≠ ("Total", "")) :
    (tableView t).rows.getLast? =
      some ((("Total", ""), colSums t.cols.length t.rows)) ∧
    (tableView t).rows.countP (fun r => decide (r.1 = ("Total", ""))) = 1 ∧
    (tableView t).rows.dropLast = t.rows ∧
    ∀ j, j < t.cols.length →
      (colSums t.cols.length t.rows).getD j 0 =
        ((tableView t).rows.dropLast.map (fun r => r.2.getD j 0)).sum := by
  have hdrop : (tableView t).rows.dropLast = t.rows := by
    simp [tableView, List.dropLast_concat]
  refine ⟨?_, ?_, hdrop, ?_⟩
  · simp [tableView, List.getLast?_append]
  · simp only [tableView, List.countP_append]
    have h0 : t.rows.countP (fun r => decide (r.1 = ("Total", ""))) = 0 :=
      List.countP_eq_zero.mpr (fun r hr => by simpa using hno r hr)
    rw [h0]
    simp
  · intro j hj
    rw [hdrop]
    exact colSums_getD _ _ hj

/-- Witness for C5 at a concrete table that contains an Others row. -/
theorem total_row_spec_witness :
    (tableView ⟨[0, 1], [(("a", "x"), [1, 2]), (("Others", ""), [3, 4])]⟩).rows.getLast? =
      some ((("Total", ""),
        colSums ([(0 : Int), 1] : List Int).length
          [(("a", "x"), ([1, 2] : List Int)), (("Others", ""), [3, 4])])) :=
  (total_row_spec ⟨[0, 1], [(("a", "x"), [1, 2]), (("Others", ""), [3, 4])]⟩
    (by decide)).1

/-- C6 counterexample: on the collapsed table built from rows
`("b","") ↦ [5]` and `("a","") ↦ [3]` with `N = 1`, the collapsed table's
top-level order is `["b", "Others"]` but the chart view is keyed
`["Others", "b"]` — pandas `groupby` sorts keys ascending, so the chart view
does not preserve the collapsed table's top-N-then-Others ordering. -/
theorem chart_view_order_counterexample :
    (chartView (collapseTopN 1 ⟨[0], [(("b", ""), [5]), (("a", ""), [3])]⟩)).map
        Prod.fst ≠
      campaignsOf (collapseTopN 1 ⟨[0], [(("b", ""), [5]), (("a", ""), [3])]⟩) ∧
    (chartView (collapseTopN 1 ⟨[0], [(("b", ""), [5]), (("a", ""), [3])]⟩)).map
        Prod.fst = ["Others", "b"] ∧
    campaignsOf (collapseTopN 1 ⟨[0], [(("b", ""), [5]), (("a", ""), [3])]⟩) =
      ["b", "Others"] := by
  refine ⟨by decide, by decide, by decide⟩

/-- C6 (amended): the chart view has exactly one row per top-level campaign,
keyed by the bare campaign string — hence no second-level key, and no
`("Total", "")` row as long as "Total" is not itself a campaign (the Total
row is only appended to the table view afterwards) — and each chart row is
the column-wise sum of the sub-rows sharing its campaign; but the rows are
ordered by ascending lexicographic campaign key (pandas `groupby` sorts
group keys), not in the collapsed table's top-N-then-Others order. -/
theorem chart_view_spec (t : CTable) (hno : "Total" ∉ campaignsOf t) :
    ((chartView t).map Prod.fst).Nodup ∧
    ((chartView t).map Prod.fst).Perm (campaignsOf t) ∧
    List.Sorted (fun a b => strLe a b = true) ((chartView t).map Prod.fst) ∧
    "Total" ∉ (chartView t).map Prod.fst ∧
    (∀ p ∈ chartView t, ∀ j, j < t.cols.length → p.2.getD j 0 =
      ((t.rows.filter (fun r => decide (r.1.1 = p.1))).map
        (fun r => r.2.getD j 0)).sum) := by
  haveI : IsTotal String (fun a b => strLe a b = true) :=
    ⟨fun a b => strLeAux_total a.data b.data⟩
  haveI : IsTrans String (fun a b => strLe a b = true) :=
    ⟨fun a b c => strLeAux_trans a.data b.data c.data⟩
  have hkeys : (chartView t).map Prod.fst =
      List.insertionSort (fun a b => strLe a b = true) (campaignsOf t) := by
    simp only [chartView, List.map_map]
    exact List.map_id _ ▸ rfl
  have hperm : ((chartView t).map Prod.fst).Perm (campaignsOf t) := by
    rw [hkeys]
    exact List.perm_insertionSort _ _
  refine ⟨?_, hperm, ?_, ?_, ?_⟩
  · exact hperm.nodup_iff.mpr (List.nodup_dedup _)
  · rw [hkeys]
    exact List.sorted_insertionSort _ _
  · intro hmem
    exact hno (hperm.mem_iff.mp hmem)
  · intro p hp j hj
    obtain ⟨c, _, rfl⟩ := List.mem_map.mp hp
    exact colSums_getD _ _ hj

/-- Witness for C6 (amended) at a concrete collapsed table. -/
theorem chart_view_spec_witness :
    ((chartView ⟨[0], [(("b", ""), [5]), (("Others", ""), [3])]⟩).map
      Prod.fst).Perm
        (campaignsOf ⟨[0], [(("b", ""), [5]), (("Others", ""), [3])]⟩) :=
  (chart_view_spec ⟨[0], [(("b", ""), [5]), (("Others", ""), [3])]⟩
    (by decide)).2.1

/-!
Embedding of `run_all_reports.py` with Python's exception semantics made
explicit.  Two facts about the source matter: `campaign.py` defines no
`main()` — its whole report body runs when `import campaign` executes
(`run_all_reports.py` line 5), outside every `try/except` — and each
orchestration step's `except Exception` does not catch `SystemExit`,
which the `sys.exit()` calls on the reports' no-data paths raise
(e.g. `overview.py` line 68).
-/

/-- A raised Python exception as the driver sees it: an `Exception`
subclass (caught by `except Exception`) carrying its message, or
`SystemExit` (a `BaseException` that `except Exception` lets through). -/
inductive PyException where
  | exc (msg : String)
  | systemExit
deriving DecidableEq, Repr

/-- Behaviour of one report body when executed: completes normally, or
raises. -/
inductive RunOutcome where
  | ok
  | raises (e : PyException)
deriving DecidableEq, Repr

/-- The guarded steps of `run_all`
(`try: report.main() except Exception as e: print("  -> ERROR: ...")`,
one block per report): a normal completion or a caught `Exception` is
logged and execution falls through to the next step; an uncaught
`SystemExit` aborts the driver, skipping every remaining step. -/
def runGuarded : List RunOutcome → Except PyException (List String)
  | [] => .ok []
  | r :: rest =>
      match r with
      | .ok =>
          match runGuarded rest with
          | .error e => .error e
          | .ok log => .ok ("done" :: log)
      | .raises (.exc msg) =>
          match runGuarded rest with
          | .error e => .error e
          | .ok log => .ok (("  -> ERROR: " ++ msg) :: log)
      | .raises .systemExit => .error .systemExit

/-- The `run_all_reports.py` process: `import campaign` first executes the
whole campaign report body unprotected — any exception it raises is
uncaught and kills the process before a single guarded step runs — and
only then do the guarded steps execute. -/
def run_all (campaign_import : RunOutcome) (reports : List RunOutcome) :
    Except PyException (List String) :=
  match campaign_import with
  | .ok => runGuarded reports
  | .raises e => .error e

/-- C8: the claim fails on the code — a fatal error in one report does
prevent its siblings from running.  `sys.exit()` on the first report's
no-data path raises `SystemExit`, which `except Exception` does not catch,
so every remaining report is skipped; and any exception raised while
`import campaign` executes the campaign report body aborts the driver
before any guarded step runs.  Only a plain `Exception` raised inside a
`main()` call is isolated as the spec intends (third conjunct). -/
theorem run_all_failure_not_isolated :
    (∀ rest, run_all .ok (.raises .systemExit :: rest) =
      .error .systemExit) ∧
    (∀ e reports, run_all (.raises e) reports = .error e) ∧
    run_all .ok [.raises (.exc "boom"), .ok, .ok, .ok, .ok] =
      .ok ["  -> ERROR: boom", "done", "done", "done", "done"] := by
  exact ⟨fun rest => rfl, fun e reports => rfl, rfl⟩

/-!
Embedding of the Key Event Rate computation of
`campaign_performance.py` (`process_performance_data`, lines 115-116):
`df['Key Event Rate'] = (df['Key Events'] / df['Engaged Sessions']).fillna(0)`.
pandas divides the integer columns as float64: `k/0` is `inf` for `k > 0`,
`-inf` for `k < 0`, `0/0` is `NaN`, and no exception is raised; the claims
only concern the zero-denominator special values, which float64 represents
exactly.
-/

/-- Value of one float64 cell of the rate column. -/
inductive FloatVal where
  | nan
  | inf
  | negInf
  | val (q : ℚ)
deriving DecidableEq, Repr

/-- Pandas / numpy float division of two integer metric values. -/
def fdiv (a b : Int) : FloatVal :=
  if b = 0 then
    if a = 0 then .nan
    else if 0 < a then .inf else .negInf
  else .val ((a : ℚ) / (b : ℚ))

/-- Pandas `.fillna(0)` on one cell: NaN becomes 0. -/
def fillna0 (x : FloatVal) : FloatVal :=
  match x with
  | .nan => .val 0
  | x => x

/-- Per-row Key Event Rate:
`(df['Key Events'] / df['Engaged Sessions']).fillna(0)`. -/
def keyEventRate (key_events engaged_sessions : Int) : FloatVal :=
  fillna0 (fdiv key_events engaged_sessions)

/-- C10: the Key Event Rate division never raises on a zero Engaged
Sessions value — it is total on all integer inputs; with Key Events = 0 and
Engaged Sessions = 0 the 0/0 NaN is replaced by exactly 0, and with
Key Events > 0 over zero Engaged Sessions the result is the infinite rate
rather than an error. -/
theorem key_event_rate_zero_safe :
    keyEventRate 0 0 = .val 0 ∧
    (∀ k : Int, 0 < k → keyEventRate k 0 = .inf) ∧
    (∀ k e : Int, ∃ x, keyEventRate k e = x) := by
  refine ⟨rfl, ?_, fun k e => ⟨_, rfl⟩⟩
  intro k hk
  have hne : k ≠ 0 := ne_of_gt hk
  simp [keyEventRate, fdiv, fillna0, hne, hk]

/-- Witness for C10 at Key Events = 2, Engaged Sessions = 0. -/
theorem key_event_rate_zero_safe_witness : keyEventRate 2 0 = .inf :=
  key_event_rate_zero_safe.2.1 2 (by decide)
